import Mathlib

/-!
Verification of the page serialization layer of a small B-tree store
(`src/file/paging.py`): the cell variant model, the page header and
slot-offset table codec, and the paged-file read/write operations.

Bytes are modelled as `List Nat` (each entry a byte value); machine
integers are `Nat` with explicit bounds checks mirroring Python's
`struct.pack` range errors.  Fallible code returns `Except PErr`.
-/

namespace Paging

/-- Python exception kinds observable from the paging layer:
`format msg` models `FileFormatError(msg)`; `struct` models
`struct.error` (range or bounds violations in `struct.pack` /
`struct.unpack_from`); `typeErr` models `TypeError`. -/
inductive PErr where
  | format (msg : String)
  | struct
  | typeErr
deriving DecidableEq, Repr

/-- A byte string: a list of byte values. -/
abbrev Bytes := List Nat

/-- Read one byte at index `i` (callers check bounds first, as
`struct.unpack_from` does). -/
def readU8 (b : Bytes) (i : Nat) : Nat := b.getD i 0

/-- Read a big-endian `u16` at index `i` (struct format `>H`). -/
def readU16 (b : Bytes) (i : Nat) : Nat :=
  256 * b.getD i 0 + b.getD (i + 1) 0

/-- Read a big-endian `u32` at index `i` (struct format `>I`). -/
def readU32 (b : Bytes) (i : Nat) : Nat :=
  256 * (256 * (256 * b.getD i 0 + b.getD (i + 1) 0) + b.getD (i + 2) 0)
    + b.getD (i + 3) 0

/-- Big-endian `u16` byte encoding (correct for `x < 65536`). -/
def u16b (x : Nat) : Bytes := [x / 256, x % 256]

/-- Big-endian `u32` byte encoding (correct for `x < 2^32`). -/
def u32b (x : Nat) : Bytes :=
  [x / 16777216, x / 65536 % 256, x / 256 % 256, x % 256]

/-- `struct.pack '>H'`: fails with `struct.error` when out of range. -/
def packU16 (x : Nat) : Except PErr Bytes :=
  if x < 65536 then .ok (u16b x) else .error .struct

/-- `struct.pack '>I'`: fails with `struct.error` when out of range. -/
def packU32 (x : Nat) : Except PErr Bytes :=
  if x < 4294967296 then .ok (u32b x) else .error .struct

/-- `s_page_offs.iter_unpack`: split a byte string into consecutive
big-endian `u16` values. -/
def u16Chunks : Bytes → List Nat
  | a :: b :: rest => (256 * a + b) :: u16Chunks rest
  | _ => []

/-- The four page types of `PageTypes` (an `IntEnum` in the source). -/
inductive PageTypes where
  | indexInterior
  | tableInterior
  | indexLeaf
  | tableLeaf
deriving DecidableEq, Repr

/-- The integer code of each page type
(`IndexInterior = 2, TableInterior = 5, IndexLeaf = 10, TableLeaf = 13`). -/
def PageTypes.code : PageTypes → Nat
  | .indexInterior => 2
  | .tableInterior => 5
  | .indexLeaf => 10
  | .tableLeaf => 13

/-- Membership test `ptype in _cells` together with the enum conversion
`PageTypes(ptype)` used by `read_page`. -/
def PageTypes.decode (n : Nat) : Option PageTypes :=
  if n = 2 then some .indexInterior
  else if n = 5 then some .tableInterior
  else if n = 10 then some .indexLeaf
  else if n = 13 then some .tableLeaf
  else none

/-- The four concrete `DataCell` subclasses of the source. -/
inductive CellClass where
  | tableLeafCell
  | indexLeafCell
  | tableInteriorCell
  | indexInteriorCell
deriving DecidableEq, Repr

/-- Transcription of the `_cells` dictionary (page type to cell class):
both leaf page types route to `TableLeafCell`, both interior page types
route to `TableInteriorCell`. -/
def cellsMap : PageTypes → CellClass
  | .tableLeaf => .tableLeafCell
  | .indexLeaf => .tableLeafCell
  | .tableInterior => .tableInteriorCell
  | .indexInterior => .tableInteriorCell

/-- `_head.size` of each cell class: `TableLeafCell` uses `>0sHI` (6
bytes), `IndexLeafCell` uses `>0sH0s` (2 bytes), `TableInteriorCell`
uses `>I0sI` (8 bytes), `IndexInteriorCell` uses `>IH0s` (6 bytes). -/
def headSize : CellClass → Nat
  | .tableLeafCell => 6
  | .indexLeafCell => 2
  | .tableInteriorCell => 8
  | .indexInteriorCell => 6

/-- Modelled from the spec: a typed column value handled by the external
value codec (`src/file/valuetype.py`, not present under `src/`).  A value
carries its type code and its payload bytes; the codec writes the type
code first, so `payload[1]` in `load_payload` is a type code. -/
structure Value where
  code : Nat
  data : List Nat
deriving DecidableEq, Repr

/-- An element of an index cell's `rowids` container.  `int n` is the
Python integer `n`; `tup n` is the Python one-element tuple `(n,)` as
produced by `struct.iter_unpack('>I', ...)`. -/
inductive RowEntry where
  | int (n : Nat)
  | tup (n : Nat)
deriving DecidableEq, Repr

/-- One data cell.  The variants carry exactly the structural fields the
source's corresponding class populates; fields packed as zero-length
(`0s`) struct members, which are always the absence marker `None`, are
omitted. -/
inductive Cell where
  | tableLeaf (rowid : Nat) (tuples : List Value)
  | indexLeaf (key : Value) (rowids : List RowEntry)
  | tableInterior (left_child : Nat) (rowid : Nat)
  | indexInterior (left_child : Nat) (key : Value) (rowids : List RowEntry)
deriving DecidableEq, Repr

/-- The logical content of one page (class `Page`).  The declared
tuple-type schema is a `PagingFile`-level attribute and is passed to the
operations as a parameter. -/
structure Page where
  cur_pnum : Nat
  ptype : PageTypes
  pnum_right : Nat
  pnum_parent : Nat
  cells : List Cell
deriving DecidableEq, Repr

/-- The five fields unpacked from the 16-byte page header
(`s_page_header = struct.Struct('>BxHHIIxx')`), with the sentinel rule of
`read_page` applied: a raw `poff_start` of 0 is reinterpreted as 0x10000. -/
structure HeaderFields where
  ptypeRaw : Nat
  ncells : Nat
  poff_start : Nat
  pnum_right : Nat
  pnum_parent : Nat
deriving DecidableEq, Repr

/-- Header parsing step of `read_page` (lines 315-318): unpack the page
header and apply the `poff_start` sentinel. -/
def parsePageHeader (page : Bytes) : HeaderFields :=
  let raw := readU16 page 4
  { ptypeRaw := readU8 page 0
    ncells := readU16 page 2
    poff_start := if raw = 0 then 65536 else raw
    pnum_right := readU32 page 6
    pnum_parent := readU32 page 10 }

/-- Modelled from the spec: `check_type_compat(expected_type, actual)` of
the external value codec — "fails with a type-mismatch error if
incompatible".  Compatibility is modelled as equality of type codes. -/
def checkTypeCompat (exp act : Nat) : Bool := exp == act

/-- Modelled from the spec: `vpack1(type, value)` of the external value
codec — "pack_one(type, value) -> bytes prefixed with its own length".
The type code is written first (so the byte after an index payload's
count byte is a type code, as `load_payload` assumes), then the data
length, then the data. -/
def vpack1 (_t : Nat) (v : Value) : Bytes :=
  v.code :: v.data.length :: v.data

/-- Modelled from the spec: `vunpack1_from(bytes, offset)` of the
external value codec — "unpack_one_with_length(bytes, offset) -> (value,
bytes_consumed)". -/
def vunpack1From (b : Bytes) (off : Nat) : Except PErr (Value × Nat) :=
  match b.drop off with
  | c :: l :: rest =>
      if l ≤ rest.length then .ok (⟨c, rest.take l⟩, 2 + l)
      else .error (.format "Truncated value")
  | _ => .error (.format "Truncated value")

/-- The data section of a packed tuple: each value's length-prefixed
data, in order. -/
def packChunks : List Value → Bytes
  | [] => []
  | v :: rest => v.data.length :: (v.data ++ packChunks rest)

/-- Modelled from the spec: `vpack(types, *values)` of the external
value codec — "pack_tuple(types, values) -> bytes".  Layout: a count
byte, then one type code per value (so `payload[1 : 1 + n]` are the type
codes `load_payload` checks), then each value's length-prefixed data. -/
def vpack (_ts : List Nat) (vs : List Value) : Bytes :=
  vs.length :: (vs.map Value.code ++ packChunks vs)

/-- Parse `n` length-prefixed data chunks, requiring exact consumption. -/
def chunksParse : Nat → Bytes → Except PErr (List Bytes)
  | 0, [] => .ok []
  | 0, _ :: _ => .error (.format "Trailing bytes")
  | _ + 1, [] => .error (.format "Truncated value")
  | n + 1, l :: rest =>
      if l ≤ rest.length then
        match chunksParse n (rest.drop l) with
        | .ok cs => .ok (rest.take l :: cs)
        | .error e => .error e
      else .error (.format "Truncated value")

/-- Modelled from the spec: `vunpack(bytes)` of the external value codec
— "unpack_tuple(bytes) -> sequence of values". -/
def vunpack (b : Bytes) : Except PErr (List Value) :=
  match b with
  | [] => .error (.format "Truncated value")
  | n :: rest =>
      if n ≤ rest.length then
        match chunksParse n (rest.drop n) with
        | .ok chunks => .ok (List.zipWith (fun c d => ⟨c, d⟩) (rest.take n) chunks)
        | .error e => .error e
      else .error (.format "Truncated value")

/-- `TableLeafCell.load_payload`: unpack the tuple, check its arity
against the schema, and check each stored type code (`payload[1 : 1+n]`)
against the declared column type. -/
def tableLeafLoadPayload (tt : List Nat) (payload : Bytes) :
    Except PErr (List Value) :=
  match vunpack payload with
  | .error e => .error e
  | .ok tuples =>
      if tuples.length ≠ tt.length then .error (.format "Mismatch tuple sizes")
      else if (tt.zip ((payload.drop 1).take tuples.length)).all
          (fun p => checkTypeCompat p.1 p.2) then .ok tuples
      else .error (.format "Type mismatch")

/-- `struct.pack('>' + 'I' * nrows, *rowids)` in
`IndexLeafCell.store_payload`: each member must be an `int` in `u32`
range, otherwise `struct.error`. -/
def packRowids : List RowEntry → Except PErr Bytes
  | [] => .ok []
  | .int r :: rest =>
      match packU32 r, packRowids rest with
      | .ok a, .ok b => .ok (a ++ b)
      | .error e, _ => .error e
      | _, .error e => .error e
  | .tup _ :: _ => .error .struct

/-- `IndexLeafCell.store_payload`: a count byte, the packed key, then
the row-ids; more than 255 row-ids is a `FileFormatError`. -/
def indexStorePayload (t : Nat) (key : Value) (rowids : List RowEntry) :
    Except PErr Bytes :=
  if 255 < rowids.length then .error (.format "Too many row IDs")
  else
    match packRowids rowids with
    | .ok bs => .ok (rowids.length :: (vpack1 t key ++ bs))
    | .error e => .error e

/-- `struct.iter_unpack('>I', bytes)`: decode consecutive `u32` values,
each wrapped in a one-element tuple. -/
def u32Tups : Bytes → List RowEntry
  | a :: b :: c :: d :: rest =>
      .tup (256 * (256 * (256 * a + b) + c) + d) :: u32Tups rest
  | _ => []

/-- `IndexLeafCell.load_payload`: check the minimum size, the key's type
code, and the exact payload length, then collect the row-id tuples into
a set (modelled as duplicate removal). -/
def indexLoadPayload (tt : List Nat) (payload : Bytes) :
    Except PErr (Value × List RowEntry) :=
  if payload.length < 2 then .error (.format "Invalid payload size")
  else
    let nids := payload.getD 0 0
    if checkTypeCompat (tt.getD 0 0) (payload.getD 1 0) then
      match vunpack1From payload 1 with
      | .error e => .error e
      | .ok (key, key_size) =>
          if payload.length ≠ key_size + 1 + 4 * nids then
            .error (.format "Invalid payload size")
          else .ok (key, (u32Tups (payload.drop (key_size + 1))).dedup)
    else .error (.format "Type mismatch")

/-- `Page.unpack_cell_from`: dispatch on the page type through `_cells`,
unpack the variant head (`struct.unpack_from` fails with `struct.error`
when the head runs past the buffer), validate the payload size and
bounds, and load the payload.  The two index cell classes are
unreachable through `_cells`; on those paths, constructing the cell
raises `TypeError` (the malformed `super().__init__(*params **kparams)`
call in `IndexLeafCell.__init__`). -/
def unpackCellFrom (ptype : PageTypes) (tt : List Nat) (buff : Bytes)
    (off : Nat) : Except PErr (Cell × Nat) :=
  let cls := cellsMap ptype
  let hsz := headSize cls
  if buff.length < off + hsz then .error .struct
  else
    match cls with
    | .tableLeafCell =>
        let payload_size := readU16 buff off
        let rowid := readU32 buff (off + 2)
        if payload_size = 0 then .error (.format "Invalid payload size")
        else if buff.length < payload_size + (off + hsz) then
          .error (.format "Invalid payload size")
        else
          match tableLeafLoadPayload tt ((buff.drop (off + hsz)).take payload_size) with
          | .error e => .error e
          | .ok tuples => .ok (.tableLeaf rowid tuples, payload_size + hsz)
    | .tableInteriorCell =>
        .ok (.tableInterior (readU32 buff off) (readU32 buff (off + 4)), hsz)
    | .indexLeafCell =>
        let payload_size := readU16 buff off
        if payload_size = 0 then .error (.format "Invalid payload size")
        else if buff.length < payload_size + (off + hsz) then
          .error (.format "Invalid payload size")
        else .error .typeErr
    | .indexInteriorCell =>
        let payload_size := readU16 buff (off + 4)
        if payload_size = 0 then .error (.format "Invalid payload size")
        else if buff.length < payload_size + (off + hsz) then
          .error (.format "Invalid payload size")
        else .error .typeErr

/-- `Page.pack_cell`: check that the cell's runtime class is exactly the
class `_cells` assigns to the page type, then pack head and payload.
For `TableLeafCell` the head is `[payload_size:u16][rowid:u32]`; for
`TableInteriorCell` it is `[left_child:u32][rowid:u32]` with no
payload. -/
def packCell (ptype : PageTypes) (tt : List Nat) (cell : Cell) :
    Except PErr Bytes :=
  match cellsMap ptype, cell with
  | .tableLeafCell, .tableLeaf rowid tuples =>
      let payload := vpack tt tuples
      (match packU16 payload.length, packU32 rowid with
       | .ok a, .ok b => .ok (a ++ b ++ payload)
       | .error e, _ => .error e
       | _, .error e => .error e)
  | .tableInteriorCell, .tableInterior lc rowid =>
      (match packU32 lc, packU32 rowid with
       | .ok a, .ok b => .ok (a ++ b)
       | .error e, _ => .error e
       | _, .error e => .error e)
  | .indexLeafCell, .indexLeaf key rowids =>
      (match indexStorePayload (tt.getD 0 0) key rowids with
       | .ok payload =>
           (match packU16 payload.length with
            | .ok a => .ok (a ++ payload)
            | .error e => .error e)
       | .error e => .error e)
  | .indexInteriorCell, .indexInterior lc key rowids =>
      (match indexStorePayload (tt.getD 0 0) key rowids with
       | .ok payload =>
           (match packU32 lc, packU16 payload.length with
            | .ok a, .ok b => .ok (a ++ b ++ payload)
            | .error e, _ => .error e
            | _, .error e => .error e)
       | .error e => .error e)
  | _, _ => .error (.format "Cell type mismatch for page type")

/-- The cell-packing list comprehension of `write_page`
(`[page.pack_cell(c) for c in page.cells]`): the first failure
propagates. -/
def packCells (ptype : PageTypes) (tt : List Nat) :
    List Cell → Except PErr (List Bytes)
  | [] => .ok []
  | c :: rest =>
      match packCell ptype tt c with
      | .error e => .error e
      | .ok b =>
          match packCells ptype tt rest with
          | .error e => .error e
          | .ok bs => .ok (b :: bs)

/-- The cell-decoding loop of `read_page` (lines 336-345).  `prevOff` is
initialised to the page length and — exactly as in the source — never
rebound inside the loop, so every cell is compared against the page end
rather than against the previous cell's start. -/
def readCellsLoop (ptype : PageTypes) (tt : List Nat) (page : Bytes)
    (cellOffEnd prevOff : Nat) : List Nat → Except PErr (List Cell)
  | [] => .ok []
  | off :: rest =>
      if off < cellOffEnd then .error (.format "Invalid cell offset")
      else
        match unpackCellFrom ptype tt page off with
        | .error e => .error e
        | .ok (cell, size) =>
            if prevOff < off + size then
              .error (.format "Overlapping cells or bad offset")
            else
              match readCellsLoop ptype tt page cellOffEnd prevOff rest with
              | .error e => .error e
              | .ok cells => .ok (cell :: cells)

/-- `PagingFile.read_page`: seek to `pagenum * P`, read exactly `P`
bytes (`readn` raises a Format Error on a short read), parse and check
the header, then decode every slot.  `P` and `tt` model the paging
file's `page_size` and `tuple_types` attributes. -/
def readPage (P : Nat) (tt : List Nat) (file : Bytes) (pagenum : Nat) :
    Except PErr Page :=
  let avail := file.drop (pagenum * P)
  if avail.length < P then .error (.format "Short read")
  else
    let page := avail.take P
    if page.length < 16 then .error .struct
    else
      let h := parsePageHeader page
      match PageTypes.decode h.ptypeRaw with
      | none => .error (.format "Invalid page type")
      | some ptype =>
          let cellOffEnd := 16 + h.ncells * 2
          if page.length ≤ cellOffEnd then
            .error (.format "Invalid number of cells")
          else if h.poff_start < cellOffEnd then
            .error (.format "Invalid start offset")
          else
            let offs := u16Chunks ((page.drop 16).take (cellOffEnd - 16))
            match readCellsLoop ptype tt page cellOffEnd page.length offs with
            | .error e => .error e
            | .ok cells =>
                .ok { cur_pnum := pagenum, ptype := ptype,
                      pnum_right := h.pnum_right,
                      pnum_parent := h.pnum_parent, cells := cells }

/-- Total length of a list of packed cells. -/
def totalLen (packed : List Bytes) : Nat := (packed.map List.length).sum

/-- The slot offsets accumulated by `write_page`: each cell's start
offset, walking backward from `b`. -/
def offsN : Nat → List Bytes → List Nat
  | _, [] => []
  | b, c :: rest => (b - c.length) :: offsN (b - c.length) rest

/-- `struct.pack('>' + 'H' * len(offs), *offs)`. -/
def packOffs : List Nat → Except PErr Bytes
  | [] => .ok []
  | x :: rest =>
      match packU16 x, packOffs rest with
      | .ok a, .ok b => .ok (a ++ b)
      | .error e, _ => .error e
      | _, .error e => .error e

/-- `s_page_header.pack(ptype, ncells, poff, pnum_right, pnum_parent)`
for format `>BxHHIIxx` (pad bytes are zero). -/
def packHeader (ptype ncells poff pr pp : Nat) : Except PErr Bytes :=
  if 256 ≤ ptype then .error .struct
  else
    match packU16 ncells, packU16 poff, packU32 pr, packU32 pp with
    | .ok a, .ok b, .ok c, .ok d => .ok ([ptype, 0] ++ a ++ b ++ c ++ d ++ [0, 0])
    | .error e, _, _, _ => .error e
    | _, .error e, _, _ => .error e
    | _, _, .error e, _ => .error e
    | _, _, _, .error e => .error e

/-- `PagingFile.write_page` up to byte assembly: pack every cell, check
the cell count, lay the cell bodies out backward from the page end
(`body` accumulates as `cell + body`), check for page overflow before
and after assembling the header and slot table, and produce the full
page image (header, slot table, zero padding, bodies).  The source's
`prev_off <= 0` check on the Python integer `prev_off = P - total` is
the check `P ≤ total`. -/
def writePageBytes (P : Nat) (tt : List Nat) (pg : Page) :
    Except PErr Bytes :=
  match packCells pg.ptype tt pg.cells with
  | .error e => .error e
  | .ok packed =>
      if 256 ≤ packed.length then .error (.format "Too many cells to pack")
      else
        let total := totalLen packed
        let offs := offsN P packed
        let body := packed.reverse.flatten
        if P ≤ total then .error (.format "Overflow of cells")
        else
          match packHeader pg.ptype.code packed.length (P - total)
              pg.pnum_right pg.pnum_parent with
          | .error e => .error e
          | .ok hdr =>
              match packOffs offs with
              | .error e => .error e
              | .ok offsBytes =>
                  let pageHead := hdr ++ offsBytes
                  if P - total < pageHead.length then
                    .error (.format "Overflow of cells")
                  else
                    .ok (pageHead ++
                      List.replicate ((P - total) - pageHead.length) 0 ++ body)

/-- Writing `data` at byte position `pos` of a random-access file:
`seek` past the end zero-fills the gap. -/
def spliceFile (file : Bytes) (pos : Nat) (data : Bytes) : Bytes :=
  (file.take pos ++ List.replicate (pos - file.length) 0) ++ data ++
    file.drop (pos + data.length)

/-- `PagingFile.write_page` including the file write: every validation
of `writePageBytes` precedes the seek and write, so on error the file is
returned unchanged. -/
def writePageFile (P : Nat) (tt : List Nat) (file : Bytes) (pg : Page) :
    Except PErr Unit × Bytes :=
  match writePageBytes P tt pg with
  | .error e => (.error e, file)
  | .ok data => (.ok (), spliceFile file (pg.cur_pnum * P) data)

/-- The page image of one valid cell, as a total function: head then
payload for `TableLeafCell`, head only for `TableInteriorCell` (other
variants never match their page's `_cells` class, so `pack_cell` rejects
them before encoding). -/
def encCell (tt : List Nat) : Cell → Bytes
  | .tableLeaf rowid tuples =>
      let payload := vpack tt tuples
      u16b payload.length ++ u32b rowid ++ payload
  | .tableInterior lc rowid => u32b lc ++ u32b rowid
  | .indexLeaf _ _ => []
  | .indexInterior _ _ _ => []

/-- Structural-field width constraints of the data model (`rowid`,
`left_child`, page pointers are `u32`; `payload_size` is `u16`), for
cells whose variant matches the page type's `_cells` class.  A cell of
the wrong variant is unconstrained: `pack_cell` rejects it with a
Format Error before packing any field. -/
def cellPackWF (ptype : PageTypes) (tt : List Nat) : Cell → Bool
  | .tableLeaf rowid tuples =>
      cellsMap ptype != .tableLeafCell ||
        (decide (rowid < 4294967296) && decide ((vpack tt tuples).length < 65536))
  | .tableInterior lc rowid =>
      cellsMap ptype != .tableInteriorCell ||
        (decide (lc < 4294967296) && decide (rowid < 4294967296))
  | .indexLeaf _ _ => true
  | .indexInterior _ _ _ => true

/-- A cell that matches its page type's `_cells` class and satisfies the
width constraints, so that `pack_cell` succeeds and produces
`encCell`. -/
def cellFit (ptype : PageTypes) (tt : List Nat) : Cell → Bool
  | .tableLeaf rowid tuples =>
      cellsMap ptype == .tableLeafCell &&
        decide (rowid < 4294967296) && decide ((vpack tt tuples).length < 65536)
  | .tableInterior lc rowid =>
      cellsMap ptype == .tableInteriorCell &&
        decide (lc < 4294967296) && decide (rowid < 4294967296)
  | .indexLeaf _ _ => false
  | .indexInterior _ _ _ => false

/-- A cell list valid for a page: every cell matches the page type and
every tuple value's type code agrees with the declared schema (which is
what `check_type_compat` verifies on decode). -/
def cellValid (ptype : PageTypes) (tt : List Nat) : Cell → Bool
  | .tableLeaf rowid tuples =>
      cellsMap ptype == .tableLeafCell && decide (rowid < 4294967296) &&
        decide ((vpack tt tuples).length < 65536) &&
        tuples.map Value.code == tt
  | .tableInterior lc rowid =>
      cellsMap ptype == .tableInteriorCell &&
        decide (lc < 4294967296) && decide (rowid < 4294967296)
  | .indexLeaf _ _ => false
  | .indexInterior _ _ _ => false

/-- A valid page of size `P`: pointer fields fit their `u32` header
slots, at most 255 cells (the data model's capacity invariant), every
cell valid for the page type and schema, and header, slot table and
encoded cell bodies together fit in one page of size `P`. -/
def pageValid (P : Nat) (tt : List Nat) (pg : Page) : Bool :=
  decide (pg.pnum_right < 4294967296) &&
  decide (pg.pnum_parent < 4294967296) &&
  decide (pg.cells.length ≤ 255) &&
  pg.cells.all (cellValid pg.ptype tt) &&
  decide (16 + 2 * pg.cells.length + totalLen (pg.cells.map (encCell tt)) ≤ P)

/-- A hand-crafted 512-byte `TableInterior` page image with two slots
that both hold offset 504 = 0x1F8, so both decoded cells occupy the same
span `[504, 512)`.  Header: type 5, 2 cells, `poff_start` 504, both page
pointers `INVALID_OFF`. -/
def overlapPage : Bytes :=
  [5, 0, 0, 2, 1, 248] ++ [255, 255, 255, 255] ++ [255, 255, 255, 255] ++
    [0, 0] ++ [1, 248, 1, 248] ++ List.replicate 492 0

/-- A hand-crafted 512-byte `TableInterior` page image with one slot at
offset 508 = 0x1FC: the 8-byte cell head would span bytes `[508, 516)`,
past the end of the page. -/
def oobSlotPage : Bytes :=
  [5, 0, 0, 1, 1, 252] ++ [255, 255, 255, 255] ++ [255, 255, 255, 255] ++
    [0, 0] ++ [1, 252] ++ List.replicate 494 0

/-- A hand-crafted 540-byte `TableInterior` page image whose 2-byte cell
count field holds 256, with 256 slots all at offset 532 = 0x214 (the
loop accepts them because it never tightens its bound). -/
def bigCountPage : Bytes :=
  ([5, 0, 1, 0, 2, 20] ++ [255, 255, 255, 255] ++ [255, 255, 255, 255] ++
    [0, 0]) ++ (List.replicate 256 ([2, 20] : Bytes)).flatten ++
    List.replicate 12 0

end Paging

deriving instance DecidableEq for Except

namespace Paging

theorem getD_drop (l : Bytes) (n i d : Nat) :
    (l.drop n).getD i d = l.getD (n + i) d := by
  simp [List.getD_eq_getD_get?, List.getElem?_drop]

theorem readU16_drop (page : Bytes) (off k : Nat) :
    readU16 (page.drop off) k = readU16 page (off + k) := by
  simp [readU16, getD_drop, Nat.add_assoc]

theorem readU32_drop (page : Bytes) (off k : Nat) :
    readU32 (page.drop off) k = readU32 page (off + k) := by
  simp [readU32, getD_drop, Nat.add_assoc]

theorem readU16_u16b (x : Nat) (r : Bytes) : readU16 (u16b x ++ r) 0 = x := by
  show 256 * (x / 256) + x % 256 = x
  omega

theorem readU32_u32b (x : Nat) (r : Bytes) (hx : x < 4294967296) :
    readU32 (u32b x ++ r) 0 = x := by
  show 256 * (256 * (256 * (x / 16777216) + x / 65536 % 256) + x / 256 % 256)
      + x % 256 = x
  omega

theorem readU32_after_u16b (a x : Nat) (r : Bytes) (hx : x < 4294967296) :
    readU32 (u16b a ++ (u32b x ++ r)) 2 = x := by
  show 256 * (256 * (256 * (x / 16777216) + x / 65536 % 256) + x / 256 % 256)
      + x % 256 = x
  omega

theorem readU32_after_u32b (a x : Nat) (r : Bytes) (hx : x < 4294967296) :
    readU32 (u32b a ++ (u32b x ++ r)) 4 = x := by
  show 256 * (256 * (256 * (x / 16777216) + x / 65536 % 256) + x / 256 % 256)
      + x % 256 = x
  omega

theorem readU16_hdr2 (a b x : Nat) (r : Bytes) :
    readU16 (a :: b :: (u16b x ++ r)) 2 = x := by
  show 256 * (x / 256) + x % 256 = x
  omega

theorem readU16_hdr4 (a b n x : Nat) (r : Bytes) :
    readU16 (a :: b :: (u16b n ++ (u16b x ++ r))) 4 = x := by
  show 256 * (x / 256) + x % 256 = x
  omega

theorem readU32_hdr6 (a b n m x : Nat) (r : Bytes) (hx : x < 4294967296) :
    readU32 (a :: b :: (u16b n ++ (u16b m ++ (u32b x ++ r)))) 6 = x := by
  show 256 * (256 * (256 * (x / 16777216) + x / 65536 % 256) + x / 256 % 256)
      + x % 256 = x
  omega

theorem readU32_hdr10 (a b n m y x : Nat) (r : Bytes) (hx : x < 4294967296) :
    readU32 (a :: b :: (u16b n ++ (u16b m ++ (u32b y ++ (u32b x ++ r))))) 10
      = x := by
  show 256 * (256 * (256 * (x / 16777216) + x / 65536 % 256) + x / 256 % 256)
      + x % 256 = x
  omega

theorem parsePageHeader_image (c n poff r p : Nat) (rest : Bytes)
    (hpo : poff ≠ 0) (hr : r < 4294967296) (hp : p < 4294967296) :
    parsePageHeader
        (c :: 0 :: (u16b n ++ (u16b poff ++ (u32b r ++ (u32b p ++ (0 :: 0 :: rest))))))
      = ⟨c, n, poff, r, p⟩ := by
  have h2 := readU16_hdr2 c 0 n (u16b poff ++ (u32b r ++ (u32b p ++ (0 :: 0 :: rest))))
  have h4 := readU16_hdr4 c 0 n poff (u32b r ++ (u32b p ++ (0 :: 0 :: rest)))
  have h6 := readU32_hdr6 c 0 n poff r (u32b p ++ (0 :: 0 :: rest)) hr
  have h10 := readU32_hdr10 c 0 n poff r p (0 :: 0 :: rest) hp
  simp only [parsePageHeader, h2, h4, h6, h10, if_neg hpo]
  rfl

theorem chunksParse_flat (vs : List Value) :
    chunksParse vs.length (packChunks vs) = .ok (vs.map Value.data) := by
  induction vs with
  | nil => rfl
  | cons v rest ih =>
      show chunksParse (rest.length + 1)
          (v.data.length :: (v.data ++ packChunks rest)) = _
      simp only [chunksParse, if_pos (by simp : v.data.length ≤ (v.data ++ packChunks rest).length)]
      rw [List.drop_left' rfl, ih, List.take_left' rfl]
      rfl

theorem zipWith_code_data (vs : List Value) :
    List.zipWith (fun c d => Value.mk c d) (vs.map Value.code) (vs.map Value.data)
      = vs := by
  induction vs with
  | nil => rfl
  | cons v rest ih => simp [ih]

/-- Round trip of the modelled tuple codec. -/
theorem vunpack_vpack (ts : List Nat) (vs : List Value) :
    vunpack (vpack ts vs) = .ok vs := by
  have hcode : (vs.map Value.code).length = vs.length := by simp
  have hle : vs.length ≤ (vs.map Value.code ++ packChunks vs).length := by
    simp
  simp only [vpack, vunpack, if_pos hle]
  rw [List.drop_left' hcode, List.take_left' hcode, chunksParse_flat]
  exact congrArg Except.ok (zipWith_code_data vs)

theorem zip_self_all (l : List Nat) :
    (l.zip l).all (fun p => checkTypeCompat p.1 p.2) = true := by
  induction l with
  | nil => rfl
  | cons a rest ih => simpa [checkTypeCompat] using ih

/-- `TableLeafCell.load_payload` recovers a schema-conforming tuple from
its own `store_payload` image. -/
theorem tableLeafLoad_vpack (tt : List Nat) (vs : List Value)
    (h : vs.map Value.code = tt) :
    tableLeafLoadPayload tt (vpack tt vs) = .ok vs := by
  have hlen : vs.length = tt.length := by rw [← h]; simp
  have hcodes : ((vpack tt vs).drop 1).take vs.length = tt := by
    have htl : ((vs.map Value.code ++ packChunks vs).take vs.length)
        = vs.map Value.code := List.take_left' (by simp)
    simpa [vpack] using htl.trans h
  simp only [tableLeafLoadPayload, vunpack_vpack, hcodes]
  rw [if_neg (by omega), if_pos (zip_self_all tt)]

theorem vpack_length_pos (tt : List Nat) (vs : List Value) :
    0 < (vpack tt vs).length := by
  simp [vpack]

theorem packU16_ok (x : Nat) (h : x < 65536) : packU16 x = .ok (u16b x) := by
  simp [packU16, h]

theorem packU32_ok (x : Nat) (h : x < 4294967296) :
    packU32 x = .ok (u32b x) := by
  simp [packU32, h]

theorem code_lt (t : PageTypes) : t.code < 256 := by
  cases t <;> simp [PageTypes.code]

theorem decode_code (t : PageTypes) : PageTypes.decode t.code = some t := by
  cases t <;> rfl

theorem cellValid_fit (ptype : PageTypes) (tt : List Nat) (c : Cell)
    (h : cellValid ptype tt c = true) : cellFit ptype tt c = true := by
  cases c <;> simp [cellValid, cellFit] at h ⊢ <;> tauto

theorem packCell_fit (ptype : PageTypes) (tt : List Nat) (c : Cell)
    (h : cellFit ptype tt c = true) :
    packCell ptype tt c = .ok (encCell tt c) := by
  cases c with
  | tableLeaf rowid tuples =>
      simp only [cellFit, Bool.and_eq_true, beq_iff_eq, decide_eq_true_eq] at h
      obtain ⟨⟨hm, h1⟩, h2⟩ := h
      simp [packCell, hm, encCell, packU16_ok _ h2, packU32_ok _ h1]
  | tableInterior lc rowid =>
      simp only [cellFit, Bool.and_eq_true, beq_iff_eq, decide_eq_true_eq] at h
      obtain ⟨⟨hm, h1⟩, h2⟩ := h
      simp [packCell, hm, encCell, packU32_ok _ h1, packU32_ok _ h2]
  | indexLeaf key rowids => simp [cellFit] at h
  | indexInterior lc key rowids => simp [cellFit] at h

theorem encCell_pos (tt : List Nat) (c : Cell) (hfit : ∃ p, cellFit p tt c = true) :
    0 < (encCell tt c).length := by
  obtain ⟨p, h⟩ := hfit
  cases c <;> simp [cellFit] at h <;> simp [encCell, u16b, u32b]

theorem packCells_fit (ptype : PageTypes) (tt : List Nat) (cs : List Cell)
    (h : ∀ c ∈ cs, cellFit ptype tt c = true) :
    packCells ptype tt cs = .ok (cs.map (encCell tt)) := by
  induction cs with
  | nil => rfl
  | cons c rest ih =>
      have hc := h c (by simp)
      have hrest : ∀ x ∈ rest, cellFit ptype tt x = true := fun x hx => h x (by simp [hx])
      simp [packCells, packCell_fit ptype tt c hc, ih hrest]

theorem totalLen_cons (b : Bytes) (l : List Bytes) :
    totalLen (b :: l) = b.length + totalLen l := by
  simp [totalLen]

theorem flatten_reverse_length (l : List Bytes) :
    l.reverse.flatten.length = totalLen l := by
  simp [totalLen, List.length_flatten, List.sum_reverse]

theorem offsN_length (b : Nat) (l : List Bytes) : (offsN b l).length = l.length := by
  induction l generalizing b with
  | nil => rfl
  | cons c rest ih => simp [offsN, ih]

theorem offsN_le (b : Nat) (l : List Bytes) : ∀ x ∈ offsN b l, x ≤ b := by
  induction l generalizing b with
  | nil => simp [offsN]
  | cons c rest ih =>
      intro x hx
      simp only [offsN, List.mem_cons] at hx
      rcases hx with h | h
      · omega
      · have := ih (b - c.length) x h
        omega

theorem packOffs_ok (l : List Nat) (h : ∀ x ∈ l, x < 65536) :
    packOffs l = .ok ((l.map u16b).flatten) := by
  induction l with
  | nil => rfl
  | cons x rest ih =>
      have hx := h x (by simp)
      have hrest : ∀ y ∈ rest, y < 65536 := fun y hy => h y (by simp [hy])
      simp [packOffs, packU16_ok x hx, ih hrest]

theorem u16Chunks_flat (l : List Nat) :
    u16Chunks ((l.map u16b).flatten) = l := by
  induction l with
  | nil => rfl
  | cons x rest ih =>
      show u16Chunks (x / 256 :: x % 256 :: (rest.map u16b).flatten) = x :: rest
      rw [u16Chunks, ih]
      congr 1
      omega

theorem packHeader_ok (c n poff r p : Nat) (hc : c < 256) (hn : n < 65536)
    (hpo : poff < 65536) (hr : r < 4294967296) (hp : p < 4294967296) :
    packHeader c n poff r p
      = .ok ([c, 0] ++ u16b n ++ u16b poff ++ u32b r ++ u32b p ++ [0, 0]) := by
  rw [packHeader, if_neg (by omega), packU16_ok n hn, packU16_ok poff hpo,
    packU32_ok r hr, packU32_ok p hp]

/-- Decoding a valid cell from its own `pack_cell` image placed at
offset `off` recovers the cell and its encoded length. -/
theorem unpack_encCell (ptype : PageTypes) (tt : List Nat) (c : Cell)
    (page rest : Bytes) (off : Nat)
    (hc : cellValid ptype tt c = true)
    (hdrop : page.drop off = encCell tt c ++ rest) :
    unpackCellFrom ptype tt page off = .ok (c, (encCell tt c).length) := by
  have hencpos : 0 < (encCell tt c).length :=
    encCell_pos tt c ⟨ptype, cellValid_fit _ _ _ hc⟩
  have hoff : off ≤ page.length := by
    by_contra hlt
    push_neg at hlt
    have hnil : page.drop off = [] := List.drop_eq_nil_of_le (by omega)
    rw [hnil] at hdrop
    have := congrArg List.length hdrop
    simp at this
    omega
  have hplen : page.length = off + ((encCell tt c).length + rest.length) := by
    have hlen := congrArg List.length hdrop
    rw [List.length_drop, List.length_append] at hlen
    omega
  cases c with
  | tableLeaf rowid tuples =>
      have hm : cellsMap ptype = .tableLeafCell := by
        simp only [cellValid, Bool.and_eq_true, beq_iff_eq] at hc
        exact hc.1.1.1
      have hrow : rowid < 4294967296 := by
        simp only [cellValid, Bool.and_eq_true, beq_iff_eq,
          decide_eq_true_eq] at hc
        exact hc.1.1.2
      have hcodes : tuples.map Value.code = tt := by
        simp only [cellValid, Bool.and_eq_true, beq_iff_eq] at hc
        exact hc.2
      have henc : encCell tt (.tableLeaf rowid tuples)
          = u16b (vpack tt tuples).length ++
            (u32b rowid ++ vpack tt tuples) := by
        simp [encCell, List.append_assoc]
      have helen : (encCell tt (.tableLeaf rowid tuples)).length
          = (vpack tt tuples).length + 6 := by
        simp [encCell, u16b, u32b]
      have hdrop' : page.drop off
          = u16b (vpack tt tuples).length ++
            (u32b rowid ++ (vpack tt tuples ++ rest)) := by
        rw [hdrop, henc]
        simp [List.append_assoc]
      have hread16 : readU16 page off = (vpack tt tuples).length := by
        have h0 := readU16_drop page off 0
        rw [Nat.add_zero, hdrop'] at h0
        exact h0.symm.trans (readU16_u16b _ _)
      have hread32 : readU32 page (off + 2) = rowid := by
        have h2 := readU32_drop page off 2
        rw [hdrop'] at h2
        exact h2.symm.trans (readU32_after_u16b _ _ _ hrow)
      have hpos := vpack_length_pos tt tuples
      have hslice : (page.drop (off + 6)).take (vpack tt tuples).length
          = vpack tt tuples := by
        have hdd : page.drop (off + 6) = (page.drop off).drop 6 :=
          (List.drop_drop 6 off page).symm
        rw [hdd, hdrop']
        have hsix : ((u16b (vpack tt tuples).length ++ u32b rowid)).length = 6 := by
          simp [u16b, u32b]
        have hre : u16b (vpack tt tuples).length ++
            (u32b rowid ++ (vpack tt tuples ++ rest))
            = (u16b (vpack tt tuples).length ++ u32b rowid) ++
              (vpack tt tuples ++ rest) := by
          simp [List.append_assoc]
        rw [hre, List.drop_left' hsix, List.take_left' rfl]
      rw [unpackCellFrom]
      simp only [hm, headSize]
      rw [if_neg (by rw [helen] at hplen; omega)]
      rw [hread16, hread32]
      rw [if_neg (by omega)]
      rw [if_neg (by rw [helen] at hplen; omega)]
      rw [hslice, tableLeafLoad_vpack tt tuples hcodes, helen]
  | tableInterior lc rowid =>
      have hm : cellsMap ptype = .tableInteriorCell := by
        simp only [cellValid, Bool.and_eq_true, beq_iff_eq] at hc
        exact hc.1.1
      have hlc : lc < 4294967296 := by
        simp only [cellValid, Bool.and_eq_true, beq_iff_eq,
          decide_eq_true_eq] at hc
        exact hc.1.2
      have hrow : rowid < 4294967296 := by
        simp only [cellValid, Bool.and_eq_true, beq_iff_eq,
          decide_eq_true_eq] at hc
        exact hc.2
      have helen : (encCell tt (.tableInterior lc rowid)).length = 8 := by
        simp [encCell, u16b, u32b]
      have hdrop' : page.drop off = u32b lc ++ (u32b rowid ++ rest) := by
        rw [hdrop]
        simp [encCell, List.append_assoc]
      have hread0 : readU32 page off = lc := by
        have h0 := readU32_drop page off 0
        rw [Nat.add_zero, hdrop'] at h0
        exact h0.symm.trans (readU32_u32b _ _ hlc)
      have hread4 : readU32 page (off + 4) = rowid := by
        have h4 := readU32_drop page off 4
        rw [hdrop'] at h4
        exact h4.symm.trans (readU32_after_u32b _ _ _ hrow)
      rw [unpackCellFrom]
      simp only [hm, headSize]
      rw [if_neg (by rw [helen] at hplen; omega)]
      rw [hread0, hread4, helen]
  | indexLeaf key rowids => simp [cellValid] at hc
  | indexInterior lc key rowids => simp [cellValid] at hc

/-- The cell-decoding loop of `read_page` recovers a cell list from a
page whose region below `b` holds the cells' pack images laid out
backward from `b`, with the slot offsets `write_page` computed. -/
theorem readCellsLoop_enc (ptype : PageTypes) (tt : List Nat) (page : Bytes)
    (cellOffEnd : Nat) :
    ∀ (cs : List Cell) (b : Nat),
      (∀ c ∈ cs, cellValid ptype tt c = true) →
      cellOffEnd + totalLen (cs.map (encCell tt)) ≤ b →
      b ≤ page.length →
      page.drop (b - totalLen (cs.map (encCell tt))) =
        ((cs.map (encCell tt)).reverse).flatten ++ page.drop b →
      readCellsLoop ptype tt page cellOffEnd page.length
        (offsN b (cs.map (encCell tt))) = .ok cs
  | [], b, _, _, _, _ => rfl
  | c :: cs', b, hval, hco, hb, hseg => by
      have hvc : cellValid ptype tt c = true := hval c (by simp)
      have hval' : ∀ x ∈ cs', cellValid ptype tt x = true :=
        fun x hx => hval x (by simp [hx])
      have hcpos : 0 < (encCell tt c).length :=
        encCell_pos tt c ⟨ptype, cellValid_fit _ _ _ hvc⟩
      have htot : totalLen ((c :: cs').map (encCell tt))
          = (encCell tt c).length + totalLen (cs'.map (encCell tt)) := by
        simp [totalLen]
      have hrevlen : (((cs'.map (encCell tt)).reverse).flatten).length
          = totalLen (cs'.map (encCell tt)) := flatten_reverse_length _
      have hsplit : page.drop (b - totalLen ((c :: cs').map (encCell tt)))
          = ((cs'.map (encCell tt)).reverse).flatten ++
            (encCell tt c ++ page.drop b) := by
        rw [hseg]
        simp [List.append_assoc]
      have hdropoff : page.drop (b - (encCell tt c).length)
          = encCell tt c ++ page.drop b := by
        have harith : b - (encCell tt c).length
            = (b - totalLen ((c :: cs').map (encCell tt)))
              + totalLen (cs'.map (encCell tt)) := by
          rw [htot] at hco ⊢
          omega
        rw [harith, ← List.drop_drop, hsplit, List.drop_left' hrevlen]
      have hunpack := unpack_encCell ptype tt c page (page.drop b)
        (b - (encCell tt c).length) hvc hdropoff
      have hoffs : offsN b ((c :: cs').map (encCell tt))
          = (b - (encCell tt c).length) ::
            offsN (b - (encCell tt c).length) (cs'.map (encCell tt)) := rfl
      have hrec := readCellsLoop_enc ptype tt page cellOffEnd cs'
        (b - (encCell tt c).length) hval'
        (by rw [htot] at hco; omega) (by omega)
        (by
          have harith2 : b - (encCell tt c).length
              - totalLen (cs'.map (encCell tt))
              = b - totalLen ((c :: cs').map (encCell tt)) := by
            rw [htot]; omega
          rw [harith2, hsplit, hdropoff])
      have hlen_le : (encCell tt c).length ≤ b := by
        rw [htot] at hco; omega
      rw [hoffs, readCellsLoop]
      rw [if_neg (by rw [htot] at hco; omega)]
      simp only [hunpack, hrec]
      rw [if_neg (by omega)]

theorem u16bflat_length (l : List Nat) :
    ((l.map u16b).flatten).length = 2 * l.length := by
  induction l with
  | nil => rfl
  | cons x r ih =>
      show (u16b x ++ (r.map u16b).flatten).length = 2 * (r.length + 1)
      simp [u16b, ih]
      omega

/-- On a valid page that fits, `write_page` produces exactly the header,
slot table, zero padding and backward-packed cell bodies. -/
theorem writePageBytes_ok (P : Nat) (tt : List Nat) (pg : Page)
    (hP2 : P ≤ 65535)
    (hall : ∀ c ∈ pg.cells, cellValid pg.ptype tt c = true)
    (h255 : pg.cells.length ≤ 255)
    (hr : pg.pnum_right < 4294967296) (hp : pg.pnum_parent < 4294967296)
    (hfit : 16 + 2 * pg.cells.length +
      totalLen (pg.cells.map (encCell tt)) ≤ P) :
    writePageBytes P tt pg = .ok
      ((([pg.ptype.code, 0] ++ u16b pg.cells.length ++
          u16b (P - totalLen (pg.cells.map (encCell tt))) ++
          u32b pg.pnum_right ++ u32b pg.pnum_parent ++ [0, 0]) ++
        ((offsN P (pg.cells.map (encCell tt))).map u16b).flatten) ++
       List.replicate ((P - totalLen (pg.cells.map (encCell tt))) -
          (16 + 2 * pg.cells.length)) 0 ++
       ((pg.cells.map (encCell tt)).reverse).flatten) := by
  have hpack := packCells_fit pg.ptype tt pg.cells
    (fun c hc => cellValid_fit _ _ _ (hall c hc))
  have hmaplen : (pg.cells.map (encCell tt)).length = pg.cells.length := by
    simp
  have hoffs := packOffs_ok (offsN P (pg.cells.map (encCell tt)))
    (fun x hx => by
      have := offsN_le P (pg.cells.map (encCell tt)) x hx
      omega)
  have hhdr := packHeader_ok pg.ptype.code pg.cells.length
    (P - totalLen (pg.cells.map (encCell tt))) pg.pnum_right pg.pnum_parent
    (code_lt pg.ptype) (by omega) (by omega) hr hp
  have hheadlen :
      (([pg.ptype.code, 0] ++ u16b pg.cells.length ++
        u16b (P - totalLen (pg.cells.map (encCell tt))) ++
        u32b pg.pnum_right ++ u32b pg.pnum_parent ++ [0, 0]) ++
       ((offsN P (pg.cells.map (encCell tt))).map u16b).flatten).length
      = 16 + 2 * pg.cells.length := by
    rw [List.length_append, u16bflat_length, offsN_length, hmaplen]
    simp [u16b, u32b]
  rw [writePageBytes, hpack]
  simp only [hmaplen]
  rw [if_neg (by omega)]
  rw [if_neg (by omega)]
  simp only [hhdr, hoffs]
  rw [hheadlen, if_neg (by omega)]

theorem spliceFile_drop (f : Bytes) (pos : Nat) (d : Bytes) :
    (spliceFile f pos d).drop pos = d ++ f.drop (pos + d.length) := by
  have hpre : (f.take pos ++ List.replicate (pos - f.length) 0).length = pos := by
    simp [List.length_take]
    omega
  rw [spliceFile, List.append_assoc, List.drop_left' hpre]

/-- C1 (amended): for a valid page and a page size strictly above the
16-byte header and at most 65535 (so every 16-bit offset field is
representable), writing the page and reading its page number back
recovers the page exactly: same type, sibling and parent pointers, and
the same cells in the same order. -/
theorem write_read_roundtrip (P : Nat) (tt : List Nat) (file : Bytes)
    (pg : Page) (hP1 : 16 < P) (hP2 : P ≤ 65535)
    (hv : pageValid P tt pg = true) :
    ∃ fnew, writePageFile P tt file pg = (.ok (), fnew) ∧
      readPage P tt fnew pg.cur_pnum = .ok pg := by
  simp only [pageValid, Bool.and_eq_true, decide_eq_true_eq,
    List.all_eq_true] at hv
  obtain ⟨⟨⟨⟨hr, hp⟩, h255⟩, hall⟩, hfit⟩ := hv
  have hwrite := writePageBytes_ok P tt pg hP2 hall h255 hr hp hfit
  have hcoe : 16 + 2 * pg.cells.length < P := by
    by_cases hnil : pg.cells = []
    · rw [hnil]
      simpa using hP1
    · obtain ⟨c0, hc0mem⟩ := List.exists_mem_of_ne_nil pg.cells hnil
      have hvalid := hall c0 hc0mem
      have hpos := encCell_pos tt c0 ⟨pg.ptype, cellValid_fit _ _ _ hvalid⟩
      have hmem3 : (encCell tt c0).length ∈
          (pg.cells.map (encCell tt)).map List.length :=
        List.mem_map_of_mem _ (List.mem_map_of_mem _ hc0mem)
      have hle := List.single_le_sum (fun x _ => Nat.zero_le x) _ hmem3
      have htl : totalLen (pg.cells.map (encCell tt))
          = ((pg.cells.map (encCell tt)).map List.length).sum := rfl
      rw [← htl] at hle
      omega
  have hpoffpos : 16 ≤ P - totalLen (pg.cells.map (encCell tt)) := by omega
  have hdlen :
      ((([pg.ptype.code, 0] ++ u16b pg.cells.length ++
          u16b (P - totalLen (pg.cells.map (encCell tt))) ++
          u32b pg.pnum_right ++ u32b pg.pnum_parent ++ [0, 0]) ++
        ((offsN P (pg.cells.map (encCell tt))).map u16b).flatten) ++
       List.replicate ((P - totalLen (pg.cells.map (encCell tt))) -
          (16 + 2 * pg.cells.length)) 0 ++
       ((pg.cells.map (encCell tt)).reverse).flatten).length = P := by
    have hA : ([pg.ptype.code, 0] ++ u16b pg.cells.length ++
        u16b (P - totalLen (pg.cells.map (encCell tt))) ++
        u32b pg.pnum_right ++ u32b pg.pnum_parent ++ [0, 0]).length = 16 := by
      simp [u16b, u32b]
    rw [List.length_append, List.length_append, List.length_append,
      u16bflat_length, offsN_length, List.length_map, List.length_replicate,
      flatten_reverse_length, hA]
    omega
  set total := totalLen (pg.cells.map (encCell tt)) with htotal
  set n := pg.cells.length with hn
  set A := [pg.ptype.code, 0] ++ u16b n ++ u16b (P - total) ++
    u32b pg.pnum_right ++ u32b pg.pnum_parent ++ [0, 0] with hA
  set F := ((offsN P (pg.cells.map (encCell tt))).map u16b).flatten with hF
  set R := List.replicate ((P - total) - (16 + 2 * n)) 0 with hR
  set B := ((pg.cells.map (encCell tt)).reverse).flatten with hB
  set D := (A ++ F) ++ R ++ B with hD
  have hWF : writePageFile P tt file pg
      = (.ok (), spliceFile file (pg.cur_pnum * P) D) := by
    rw [writePageFile, hwrite]
  refine ⟨spliceFile file (pg.cur_pnum * P) D, hWF, ?_⟩
  have hAlen : A.length = 16 := by
    rw [hA]
    simp [u16b, u32b]
  have hFlen : F.length = 2 * n := by
    rw [hF, u16bflat_length, offsN_length]
    simp [hn]
  have hRlen : R.length = (P - total) - (16 + 2 * n) := by
    rw [hR, List.length_replicate]
  have hBlen : B.length = total := by
    rw [hB, flatten_reverse_length, htotal]
  have hDlen : D.length = P := by
    rw [hD]
    simp only [List.length_append, hAlen, hFlen, hRlen, hBlen]
    omega
  have hsp := spliceFile_drop file (pg.cur_pnum * P) D
  have hcanon : D = pg.ptype.code :: 0 :: (u16b n ++ (u16b (P - total) ++
      (u32b pg.pnum_right ++ (u32b pg.pnum_parent ++
        (0 :: 0 :: (F ++ (R ++ B))))))) := by
    rw [hD, hA]
    simp [List.append_assoc]
  have hhdrD : parsePageHeader D
      = ⟨pg.ptype.code, n, P - total, pg.pnum_right, pg.pnum_parent⟩ := by
    rw [hcanon]
    exact parsePageHeader_image pg.ptype.code n (P - total) pg.pnum_right
      pg.pnum_parent (F ++ (R ++ B)) (by omega) hr hp
  have hdrop16 : D.drop 16 = F ++ (R ++ B) := by
    rw [hcanon]
    rfl
  have htake16 : 16 + n * 2 - 16 = 2 * n := by omega
  have htakeoffs : (F ++ (R ++ B)).take (2 * n) = F :=
    List.take_left' (by rw [hFlen])
  have hchunks : u16Chunks F = offsN P (pg.cells.map (encCell tt)) := by
    rw [hF, u16Chunks_flat]
  have hsplitD : D.drop (P - total) = B := by
    have hfront : ((A ++ F) ++ R).length = P - total := by
      simp only [List.length_append, hAlen, hFlen, hRlen]
      omega
    have hregroup : D = ((A ++ F) ++ R) ++ B := by
      rw [hD]
    rw [hregroup, List.drop_left' hfront]
  have hdropP : D.drop P = [] := List.drop_eq_nil_of_le (by rw [hDlen])
  have hloop := readCellsLoop_enc pg.ptype tt D (16 + n * 2) pg.cells P
    (fun c hc => hall c hc)
    (by rw [← htotal]; omega)
    (by rw [hDlen])
    (by rw [← htotal, hsplitD, hdropP, List.append_nil, hB])
  rw [readPage]
  rw [hsp]
  have havlen : (D ++ file.drop (pg.cur_pnum * P + D.length)).length
      = P + (file.drop (pg.cur_pnum * P + D.length)).length := by
    rw [List.length_append, hDlen]
  rw [if_neg (by rw [havlen]; omega)]
  rw [List.take_left' hDlen]
  rw [if_neg (by rw [hDlen]; omega)]
  simp only [hhdrD, decode_code]
  rw [if_neg (by rw [hDlen]; omega)]
  rw [if_neg (by omega)]
  rw [hdrop16, htake16, htakeoffs, hchunks]
  simp only [hloop]

theorem packCells_length (ptype : PageTypes) (tt : List Nat) (cs : List Cell)
    (bs : List Bytes) (h : packCells ptype tt cs = .ok bs) :
    bs.length = cs.length := by
  induction cs generalizing bs with
  | nil =>
      rw [packCells] at h
      cases h
      rfl
  | cons c rest ih =>
      rw [packCells] at h
      cases hpc : packCell ptype tt c with
      | error e => rw [hpc] at h; cases h
      | ok b =>
          rw [hpc] at h
          cases hrest : packCells ptype tt rest with
          | error e => rw [hrest] at h; cases h
          | ok bs' =>
              rw [hrest] at h
              cases h
              simp [ih bs' hrest]

theorem u16Chunks_length (l : List Nat) :
    (u16Chunks l).length = l.length / 2 := by
  match l with
  | [] => rfl
  | [a] =>
      show ([] : List Nat).length = 1 / 2
      rfl
  | a :: b :: rest =>
      show (u16Chunks rest).length + 1 = (rest.length + 2) / 2
      rw [u16Chunks_length rest]
      omega

theorem readCellsLoop_length (ptype : PageTypes) (tt : List Nat) (page : Bytes)
    (ce po : Nat) (offs : List Nat) (cells : List Cell)
    (h : readCellsLoop ptype tt page ce po offs = .ok cells) :
    cells.length = offs.length := by
  induction offs generalizing cells with
  | nil =>
      rw [readCellsLoop] at h
      cases h
      rfl
  | cons off rest ih =>
      rw [readCellsLoop] at h
      by_cases hlt : off < ce
      · rw [if_pos hlt] at h; cases h
      · rw [if_neg hlt] at h
        cases hup : unpackCellFrom ptype tt page off with
        | error e => simp only [hup] at h; cases h
        | ok pr =>
            obtain ⟨cell, size⟩ := pr
            simp only [hup] at h
            by_cases hov : po < off + size
            · rw [if_pos hov] at h; cases h
            · rw [if_neg hov] at h
              cases hrec : readCellsLoop ptype tt page ce po rest with
              | error e => simp only [hrec] at h; cases h
              | ok cells' =>
                  simp only [hrec] at h
                  cases h
                  simp [ih cells' hrec]

theorem cellsMap_cases (p : PageTypes) :
    cellsMap p = .tableLeafCell ∨ cellsMap p = .tableInteriorCell := by
  cases p <;> simp [cellsMap]

theorem packCell_wf_cases (ptype : PageTypes) (tt : List Nat) (c : Cell)
    (h : cellPackWF ptype tt c = true) :
    packCell ptype tt c = .ok (encCell tt c) ∨
      ∃ m, packCell ptype tt c = .error (.format m) := by
  rcases cellsMap_cases ptype with hm | hm
  · cases c with
    | tableLeaf rowid tuples =>
        left
        refine packCell_fit _ _ _ ?_
        simp only [cellPackWF, hm, bne_self_eq_false, Bool.false_or,
          Bool.and_eq_true, decide_eq_true_eq] at h
        simp [cellFit, hm, h.1, h.2]
    | tableInterior lc rowid =>
        exact Or.inr ⟨"Cell type mismatch for page type", by simp [packCell, hm]⟩
    | indexLeaf key rowids =>
        exact Or.inr ⟨"Cell type mismatch for page type", by simp [packCell, hm]⟩
    | indexInterior lc key rowids =>
        exact Or.inr ⟨"Cell type mismatch for page type", by simp [packCell, hm]⟩
  · cases c with
    | tableLeaf rowid tuples =>
        exact Or.inr ⟨"Cell type mismatch for page type", by simp [packCell, hm]⟩
    | tableInterior lc rowid =>
        left
        refine packCell_fit _ _ _ ?_
        simp only [cellPackWF, hm, bne_self_eq_false, Bool.false_or,
          Bool.and_eq_true, decide_eq_true_eq] at h
        simp [cellFit, hm, h.1, h.2]
    | indexLeaf key rowids =>
        exact Or.inr ⟨"Cell type mismatch for page type", by simp [packCell, hm]⟩
    | indexInterior lc key rowids =>
        exact Or.inr ⟨"Cell type mismatch for page type", by simp [packCell, hm]⟩

theorem packCells_wf_cases (ptype : PageTypes) (tt : List Nat) (cs : List Cell)
    (h : ∀ c ∈ cs, cellPackWF ptype tt c = true) :
    (∃ bs, packCells ptype tt cs = .ok bs ∧ bs.length = cs.length) ∨
      ∃ m, packCells ptype tt cs = .error (.format m) := by
  induction cs with
  | nil => exact Or.inl ⟨[], rfl, rfl⟩
  | cons c rest ih =>
      rcases packCell_wf_cases ptype tt c (h c (by simp)) with hok | ⟨m, herr⟩
      · rcases ih (fun x hx => h x (by simp [hx])) with ⟨bs, hbs, hlen⟩ | ⟨m, herr⟩
        · exact Or.inl ⟨encCell tt c :: bs, by simp [packCells, hok, hbs], by simp [hlen]⟩
        · exact Or.inr ⟨m, by simp [packCells, hok, herr]⟩
      · exact Or.inr ⟨m, by simp [packCells, herr]⟩

theorem totalLen_fit_pos (ptype : PageTypes) (tt : List Nat) (cs : List Cell)
    (hfit : ∀ c ∈ cs, cellFit ptype tt c = true) (hne : cs ≠ []) :
    1 ≤ totalLen (cs.map (encCell tt)) := by
  obtain ⟨c0, hc0mem⟩ := List.exists_mem_of_ne_nil cs hne
  have hpos := encCell_pos tt c0 ⟨ptype, hfit c0 hc0mem⟩
  have hmem3 : (encCell tt c0).length ∈ (cs.map (encCell tt)).map List.length :=
    List.mem_map_of_mem _ (List.mem_map_of_mem _ hc0mem)
  have hle := List.single_le_sum (fun x _ => Nat.zero_le x) _ hmem3
  have htl : totalLen (cs.map (encCell tt))
      = ((cs.map (encCell tt)).map List.length).sum := rfl
  omega

theorem offsN_lt_of_pos (b : Nat) (l : List Bytes)
    (hpos : ∀ c ∈ l, 0 < c.length) (hb : 1 ≤ b) :
    ∀ x ∈ offsN b l, x < b := by
  cases l with
  | nil => simp [offsN]
  | cons c rest =>
      intro x hx
      have hc := hpos c (by simp)
      rcases List.mem_cons.mp hx with hh | ht
      · omega
      · have := offsN_le (b - c.length) rest x ht
        omega

/-- C6: a page whose cell list has 256 or more cells is rejected by
`write_page` with a Format Error, whatever the cells are — a cell of the
wrong variant for the page type fails cell packing with a Format Error,
and otherwise the cell-count check fires — provided each cell's
structural fields fit the `u32`/`u16` widths the data model assigns
them. -/
theorem c6_too_many_cells_format_error (P : Nat) (tt : List Nat) (pg : Page)
    (hwf : ∀ c ∈ pg.cells, cellPackWF pg.ptype tt c = true)
    (h256 : 256 ≤ pg.cells.length) :
    ∃ m, writePageBytes P tt pg = .error (.format m) := by
  rcases packCells_wf_cases pg.ptype tt pg.cells hwf with
    ⟨bs, hbs, hlen⟩ | ⟨m, herr⟩
  · refine ⟨"Too many cells to pack", ?_⟩
    rw [writePageBytes]
    simp only [hbs]
    rw [if_pos (by omega)]
  · exact ⟨m, by rw [writePageBytes]; simp only [herr]⟩

set_option maxRecDepth 100000 in
/-- C6 witness: a `TableInterior` page with 256 well-formed interior
cells is rejected with a Format Error. -/
theorem c6_too_many_cells_format_error_witness :
    ((List.replicate 256 (Cell.tableInterior 0 0)).all
        (cellPackWF PageTypes.tableInterior []) = true ∧
      256 ≤ (List.replicate 256 (Cell.tableInterior 0 0)).length) ∧
    ∃ m, writePageBytes 512 []
        ⟨0, .tableInterior, 0, 0, List.replicate 256 (.tableInterior 0 0)⟩
      = .error (.format m) :=
  ⟨⟨by decide, by decide⟩,
    c6_too_many_cells_format_error 512 []
      ⟨0, .tableInterior, 0, 0, List.replicate 256 (.tableInterior 0 0)⟩
      (fun c hc => by
        have : c = Cell.tableInterior 0 0 := List.eq_of_mem_replicate hc
        rw [this]
        decide)
      (by decide)⟩

/-- C7: a page whose cells' total encoded size exceeds
`P - 16 - 2 * ncells` — so that the backward-laid cell bodies would
collide with or underflow past the header and slot table — is rejected
by `write_page` with a Format Error, for any page of the data model
(pointers in `u32` range, cells matching the page type with fields in
range) and any page size up to 65536. -/
theorem c7_page_overflow_format_error (P : Nat) (tt : List Nat) (pg : Page)
    (hP : P ≤ 65536)
    (hr : pg.pnum_right < 4294967296) (hp : pg.pnum_parent < 4294967296)
    (hfitall : ∀ c ∈ pg.cells, cellFit pg.ptype tt c = true)
    (hover : P < 16 + 2 * pg.cells.length +
      totalLen (pg.cells.map (encCell tt))) :
    ∃ m, writePageBytes P tt pg = .error (.format m) := by
  have hpack := packCells_fit pg.ptype tt pg.cells hfitall
  have hmaplen : (pg.cells.map (encCell tt)).length = pg.cells.length := by
    simp
  by_cases h256 : 256 ≤ pg.cells.length
  · refine ⟨"Too many cells to pack", ?_⟩
    rw [writePageBytes]
    simp only [hpack]
    rw [if_pos (by omega)]
  · by_cases hPt : P ≤ totalLen (pg.cells.map (encCell tt))
    · refine ⟨"Overflow of cells", ?_⟩
      rw [writePageBytes]
      simp only [hpack]
      rw [if_neg (by omega)]
      rw [if_pos hPt]
    · have htpos : pg.cells = [] ∨ 1 ≤ totalLen (pg.cells.map (encCell tt)) := by
        by_cases hnil : pg.cells = []
        · exact Or.inl hnil
        · exact Or.inr (totalLen_fit_pos pg.ptype tt pg.cells hfitall hnil)
      have hpoltb : P - totalLen (pg.cells.map (encCell tt)) < 65536 := by
        rcases htpos with hnil | hpos
        · rw [hnil] at hover
          simp [totalLen] at hover ⊢
          omega
        · omega
      have hhdr := packHeader_ok pg.ptype.code pg.cells.length
        (P - totalLen (pg.cells.map (encCell tt))) pg.pnum_right pg.pnum_parent
        (code_lt pg.ptype) (by omega) hpoltb hr hp
      have hoffs := packOffs_ok (offsN P (pg.cells.map (encCell tt)))
        (fun x hx => by
          have hxlt := offsN_lt_of_pos P (pg.cells.map (encCell tt))
            (fun b hb => by
              obtain ⟨c, hc, hcb⟩ := List.mem_map.mp hb
              rw [← hcb]
              exact encCell_pos tt c ⟨pg.ptype, hfitall c hc⟩)
            (by omega) x hx
          omega)
      have hheadlen :
          (([pg.ptype.code, 0] ++ u16b pg.cells.length ++
            u16b (P - totalLen (pg.cells.map (encCell tt))) ++
            u32b pg.pnum_right ++ u32b pg.pnum_parent ++ [0, 0]) ++
           ((offsN P (pg.cells.map (encCell tt))).map u16b).flatten).length
          = 16 + 2 * pg.cells.length := by
        rw [List.length_append, u16bflat_length, offsN_length, hmaplen]
        simp [u16b, u32b]
      refine ⟨"Overflow of cells", ?_⟩
      rw [writePageBytes]
      simp only [hpack, hmaplen]
      rw [if_neg (by omega)]
      rw [if_neg (by omega)]
      simp only [hhdr, hoffs]
      rw [hheadlen, if_pos (by omega)]

/-- C7 witness: two 8-byte interior cells on a 32-byte page need
`16 + 4 + 16 = 36 > 32` bytes, and `write_page` reports a Format
Error. -/
theorem c7_page_overflow_format_error_witness :
    (32 ≤ 65536 ∧
      (List.replicate 2 (Cell.tableInterior 0 0)).all
        (cellFit PageTypes.tableInterior []) = true ∧
      32 < 16 + 2 * 2 + totalLen ((List.replicate 2
        (Cell.tableInterior 0 0)).map (encCell []))) ∧
    ∃ m, writePageBytes 32 []
        ⟨0, .tableInterior, 0, 0, List.replicate 2 (.tableInterior 0 0)⟩
      = .error (.format m) :=
  ⟨⟨by decide, by decide, by decide⟩,
    c7_page_overflow_format_error 32 []
      ⟨0, .tableInterior, 0, 0, List.replicate 2 (.tableInterior 0 0)⟩
      (by decide) (by decide) (by decide)
      (fun c hc => by
        have : c = Cell.tableInterior 0 0 := List.eq_of_mem_replicate hc
        rw [this]
        decide)
      (by decide)⟩

/-- C4 (amended): `write_page` enforces the 255-cell capacity (it fails
before writing a page with 256 or more cells), but the on-disk cell
count lives in a 2-byte header field, and a `Page` returned by
`read_page` is bounded only by the slot table fitting strictly inside
the page: its cell count `n` satisfies `16 + 2 n < P`, which exceeds
255 once the page size is large enough. -/
theorem c4_cell_count_amended :
    (∀ (P : Nat) (tt : List Nat) (pg : Page) (d : Bytes),
      writePageBytes P tt pg = .ok d → pg.cells.length ≤ 255) ∧
    (∀ (P : Nat) (tt : List Nat) (file : Bytes) (pnum : Nat) (pg' : Page),
      readPage P tt file pnum = .ok pg' → 16 + 2 * pg'.cells.length < P) := by
  constructor
  · intro P tt pg d h
    rw [writePageBytes] at h
    cases hpk : packCells pg.ptype tt pg.cells with
    | error e => rw [hpk] at h; cases h
    | ok packed =>
        simp only [hpk] at h
        have hlen := packCells_length _ _ _ _ hpk
        by_cases h256 : 256 ≤ packed.length
        · rw [if_pos h256] at h; cases h
        · omega
  · intro P tt file pnum pg' h
    simp only [readPage] at h
    by_cases hshort : (file.drop (pnum * P)).length < P
    · rw [if_pos hshort] at h; cases h
    · rw [if_neg hshort] at h
      by_cases h16 : ((file.drop (pnum * P)).take P).length < 16
      · rw [if_pos h16] at h; cases h
      · rw [if_neg h16] at h
        cases hdec : PageTypes.decode
            (parsePageHeader ((file.drop (pnum * P)).take P)).ptypeRaw with
        | none => simp only [hdec] at h; cases h
        | some ptype =>
            simp only [hdec] at h
            by_cases hcoe : ((file.drop (pnum * P)).take P).length ≤
                16 + (parsePageHeader ((file.drop (pnum * P)).take P)).ncells * 2
            · rw [if_pos hcoe] at h; cases h
            · rw [if_neg hcoe] at h
              by_cases hpo : (parsePageHeader ((file.drop (pnum * P)).take P)).poff_start <
                  16 + (parsePageHeader ((file.drop (pnum * P)).take P)).ncells * 2
              · rw [if_pos hpo] at h; cases h
              · rw [if_neg hpo] at h
                cases hloop : readCellsLoop ptype tt
                    ((file.drop (pnum * P)).take P)
                    (16 + (parsePageHeader ((file.drop (pnum * P)).take P)).ncells * 2)
                    ((file.drop (pnum * P)).take P).length
                    (u16Chunks ((((file.drop (pnum * P)).take P).drop 16).take
                      (16 + (parsePageHeader ((file.drop (pnum * P)).take P)).ncells * 2 - 16))) with
                | error e => simp only [hloop] at h; cases h
                | ok cells =>
                    simp only [hloop] at h
                    cases h
                    have hclen := readCellsLoop_length _ _ _ _ _ _ _ hloop
                    have hchlen := u16Chunks_length
                      ((((file.drop (pnum * P)).take P).drop 16).take
                        (16 + (parsePageHeader ((file.drop (pnum * P)).take P)).ncells * 2 - 16))
                    have htklen : ((((file.drop (pnum * P)).take P).drop 16).take
                        (16 + (parsePageHeader ((file.drop (pnum * P)).take P)).ncells * 2 - 16)).length ≤
                        16 + (parsePageHeader ((file.drop (pnum * P)).take P)).ncells * 2 - 16 := by
                      simp [List.length_take]
                    have hplen : ((file.drop (pnum * P)).take P).length ≤ P := by
                      simp [List.length_take]
                    simp only []
                    omega

set_option maxRecDepth 1000000 in
/-- C4 counterexample: a 540-byte page image whose 2-byte cell count
field holds 256 is decoded by `read_page` into a `Page` with 256 cells,
so neither is the on-disk cell count one byte wide nor is a decoded
page's cell list bounded by 255. -/
theorem c4_256_cells_counterexample :
    readU16 bigCountPage 2 = 256 ∧
    readPage 540 [] bigCountPage 0
      = .ok ⟨0, .tableInterior, 4294967295, 4294967295,
          List.replicate 256 (.tableInterior 0 0)⟩ ∧
    255 < (List.replicate 256 (Cell.tableInterior 0 0)).length := by
  decide

/-- C4 witness: a successful 32-byte write of an empty interior page has
at most 255 cells, and a successful 20-byte read yields a page whose
cell count `n` satisfies `16 + 2 n < 20`. -/
theorem c4_cell_count_amended_witness :
    (writePageBytes 32 [] ⟨0, .tableInterior, 0, 0, []⟩
        = .ok ([5, 0, 0, 0, 0, 32] ++ List.replicate 26 0) ∧
      readPage 20 [] ([5, 0, 0, 0, 0, 18] ++ List.replicate 14 0) 0
        = .ok ⟨0, .tableInterior, 0, 0, []⟩) ∧
    ((⟨0, .tableInterior, 0, 0, []⟩ : Page).cells.length ≤ 255 ∧
      16 + 2 * ((⟨0, .tableInterior, 0, 0, []⟩ : Page).cells.length) < 20) :=
  ⟨⟨by decide, by decide⟩,
    c4_cell_count_amended.1 32 [] ⟨0, .tableInterior, 0, 0, []⟩
      ([5, 0, 0, 0, 0, 32] ++ List.replicate 26 0) (by decide),
    c4_cell_count_amended.2 20 [] ([5, 0, 0, 0, 0, 18] ++ List.replicate 14 0)
      0 ⟨0, .tableInterior, 0, 0, []⟩ (by decide)⟩

/-- C1 counterexample: with page size exactly 16 (the header size), the
empty page is valid and fits, `write_page` succeeds, but `read_page` of
the written page fails with `Invalid number of cells` — the round trip
does not hold for every page size. -/
theorem c1_roundtrip_p16_counterexample :
    pageValid 16 [] ⟨0, .tableLeaf, 0, 0, []⟩ = true ∧
    (writePageFile 16 [] [] ⟨0, .tableLeaf, 0, 0, []⟩).1 = .ok () ∧
    readPage 16 [] (writePageFile 16 [] [] ⟨0, .tableLeaf, 0, 0, []⟩).2 0
      = .error (.format "Invalid number of cells") := by
  decide

/-- C1 witness: a one-row `TableLeaf` page under a two-column schema
round-trips through a 64-byte page. -/
theorem write_read_roundtrip_witness :
    (16 < 64 ∧ 64 ≤ 65535 ∧
      pageValid 64 [3, 5] ⟨0, .tableLeaf, 4294967295, 4294967295,
        [.tableLeaf 7 [⟨3, [1]⟩, ⟨5, [2, 9]⟩]]⟩ = true) ∧
    ∃ fnew, writePageFile 64 [3, 5] []
        ⟨0, .tableLeaf, 4294967295, 4294967295,
          [.tableLeaf 7 [⟨3, [1]⟩, ⟨5, [2, 9]⟩]]⟩ = (.ok (), fnew) ∧
      readPage 64 [3, 5] fnew
          (⟨0, .tableLeaf, 4294967295, 4294967295,
            [.tableLeaf 7 [⟨3, [1]⟩, ⟨5, [2, 9]⟩]]⟩ : Page).cur_pnum
        = .ok ⟨0, .tableLeaf, 4294967295, 4294967295,
            [.tableLeaf 7 [⟨3, [1]⟩, ⟨5, [2, 9]⟩]]⟩ :=
  ⟨⟨by decide, by decide, by decide⟩,
    write_read_roundtrip 64 [3, 5] []
      ⟨0, .tableLeaf, 4294967295, 4294967295,
        [.tableLeaf 7 [⟨3, [1]⟩, ⟨5, [2, 9]⟩]]⟩
      (by decide) (by decide) (by decide)⟩

set_option maxRecDepth 1000000 in
/-- C2: `read_page` accepts a hand-crafted page whose two slots give
both cells the identical span `[504, 512)` — overlapping cell spans are
not rejected, because the loop's `prev_off` bound is never tightened to
the previous cell's start. -/
theorem c2_overlapping_cells_accepted :
    readU16 overlapPage 16 = 504 ∧ readU16 overlapPage 18 = 504 ∧
    readPage 512 [] overlapPage 0
      = .ok ⟨0, .tableInterior, 4294967295, 4294967295,
          [.tableInterior 0 0, .tableInterior 0 0]⟩ := by
  decide

set_option maxRecDepth 1000000 in
/-- C3: a page whose single slot offset places the cell head past the
page end makes `read_page` fail with `struct.error` (from
`struct.unpack_from`), not with a `FileFormatError`. -/
theorem c3_struct_error_not_format :
    readPage 512 [] oobSlotPage 0 = .error .struct := by
  decide

/-- C5: parsing a page header whose stored `poff_start` field has raw
value 0 — the header parsing step `read_page` performs — yields start
offset 65536 (0x10000), not 0. -/
theorem c5_poff_sentinel (page : Bytes) (h : readU16 page 4 = 0) :
    (parsePageHeader page).poff_start = 65536 := by
  simp [parsePageHeader, h]

/-- C5 witness: an all-zero header parses with start offset 65536. -/
theorem c5_poff_sentinel_witness :
    readU16 (List.replicate 16 0) 4 = 0 ∧
      (parsePageHeader (List.replicate 16 0)).poff_start = 65536 :=
  ⟨by decide, c5_poff_sentinel (List.replicate 16 0) (by decide)⟩

set_option maxRecDepth 1000000 in
/-- C8: storing an `IndexLeafCell` payload with 256 distinct row-ids
fails with `Too many row IDs`; with 255 it succeeds, but loading the
stored payload back yields the row-ids wrapped in one-element tuples
(`struct.iter_unpack` results are never unwrapped), which is not the
original set of integers. -/
theorem c8_index_payload_cap_behavior :
    indexStorePayload 7 ⟨7, [1, 2]⟩ ((List.range 256).map .int)
        = .error (.format "Too many row IDs") ∧
    (indexStorePayload 7 ⟨7, [1, 2]⟩ ((List.range 255).map .int)).bind
        (indexLoadPayload [7])
      = .ok (⟨7, [1, 2]⟩, (List.range 255).map RowEntry.tup) ∧
    (List.range 255).map RowEntry.tup ≠ (List.range 255).map RowEntry.int := by
  decide

/-- C9: the `_cells` mapping routes the `IndexLeaf` page type to
`TableLeafCell`, and every successful `unpack_cell_from` on an
`IndexLeaf` page yields a table-leaf cell (rowid plus tuple), never an
index-leaf cell (key plus row-id set). -/
theorem c9_indexleaf_uses_tableleaf_cell :
    cellsMap PageTypes.indexLeaf = CellClass.tableLeafCell ∧
    ∀ (tt : List Nat) (buff : Bytes) (off : Nat) (cell : Cell) (sz : Nat),
      unpackCellFrom PageTypes.indexLeaf tt buff off = .ok (cell, sz) →
        (∃ r tp, cell = Cell.tableLeaf r tp) ∧
        ∀ k ri, cell ≠ Cell.indexLeaf k ri := by
  refine ⟨rfl, ?_⟩
  intro tt buff off cell sz h
  simp only [unpackCellFrom, cellsMap, headSize] at h
  by_cases hb : buff.length < off + 6
  · rw [if_pos hb] at h; cases h
  · rw [if_neg hb] at h
    by_cases hz : readU16 buff off = 0
    · rw [if_pos hz] at h; cases h
    · rw [if_neg hz] at h
      by_cases hbd : buff.length < readU16 buff off + (off + 6)
      · rw [if_pos hbd] at h; cases h
      · rw [if_neg hbd] at h
        cases hld : tableLeafLoadPayload tt
            ((buff.drop (off + 6)).take (readU16 buff off)) with
        | error e => simp only [hld] at h; cases h
        | ok tuples =>
            simp only [hld] at h
            cases h
            exact ⟨⟨_, _, rfl⟩, fun k ri => by simp⟩

/-- C9 witness: a concrete cell image on an `IndexLeaf` page decodes to
a `TableLeafCell`. -/
theorem c9_indexleaf_uses_tableleaf_cell_witness :
    unpackCellFrom PageTypes.indexLeaf [9] [0, 4, 0, 0, 0, 7, 1, 9, 1, 5] 0
        = .ok (Cell.tableLeaf 7 [⟨9, [5]⟩], 10) ∧
    ((∃ r tp, Cell.tableLeaf 7 [⟨9, [5]⟩] = Cell.tableLeaf r tp) ∧
      ∀ k ri, Cell.tableLeaf 7 [⟨9, [5]⟩] ≠ Cell.indexLeaf k ri) :=
  ⟨by decide,
    c9_indexleaf_uses_tableleaf_cell.2 [9] [0, 4, 0, 0, 0, 7, 1, 9, 1, 5] 0
      (Cell.tableLeaf 7 [⟨9, [5]⟩]) 10 (by decide)⟩

/-- C10: whenever `write_page` fails, the backing file is unchanged:
every validation precedes the seek and write. -/
theorem c10_error_leaves_file_unchanged (P : Nat) (tt : List Nat)
    (file : Bytes) (pg : Page) (e : PErr)
    (h : (writePageFile P tt file pg).1 = .error e) :
    (writePageFile P tt file pg).2 = file := by
  rw [writePageFile] at h ⊢
  cases hwb : writePageBytes P tt pg with
  | error e2 => simp only [hwb]
  | ok d =>
      simp only [hwb] at h
      cases h

/-- C10 witness: a wrong-variant cell makes `write_page` fail and the
three-byte file is untouched. -/
theorem c10_error_leaves_file_unchanged_witness :
    (writePageFile 512 [] [9, 9, 9]
        ⟨0, .tableLeaf, 0, 0, [.tableInterior 1 2]⟩).1
      = .error (.format "Cell type mismatch for page type") ∧
    (writePageFile 512 [] [9, 9, 9]
        ⟨0, .tableLeaf, 0, 0, [.tableInterior 1 2]⟩).2 = [9, 9, 9] :=
  ⟨by decide,
    c10_error_leaves_file_unchanged 512 [] [9, 9, 9]
      ⟨0, .tableLeaf, 0, 0, [.tableInterior 1 2]⟩
      (.format "Cell type mismatch for page type") (by decide)⟩

end Paging
